import Mathlib

/-!
Verification of the binary-float-to-decimal decoder (src/main.c).

The decode pipeline is modelled over exact rational arithmetic (`ℚ`).
At every call site exercised below, the C program's `float`/`double`
operations are exact: integer parses of at most 8 bits stay below 2^24,
fractional parses of at most 23 bits are dyadic with at most 24
significand bits, and every power of two involved lies well inside the
double range, so the rational model computes exactly the values the C
code computes.
-/

/-- The value of the C expression c - '0' (plain character arithmetic,
with no range check, exactly as the source computes it). -/
def charToDigit (c : Char) : ℤ := (c.toNat : ℤ) - ('0'.toNat : ℤ)

/-- Integer-mode accumulation loop of parse_bits:
acc = acc * 2 + (bit - '0'), folded left to right. -/
def parse_bits_int : ℚ → List Char → ℚ
  | acc, [] => acc
  | acc, c :: rest => parse_bits_int (acc * 2 + (charToDigit c : ℚ)) rest

/-- Fractional-mode accumulation loop of parse_bits:
acc += (bit - '0') * factor, with factor starting at 0.5 and halving. -/
def parse_bits_frac : ℚ → ℚ → List Char → ℚ
  | acc, _, [] => acc
  | acc, factor, c :: rest =>
      parse_bits_frac (acc + (charToDigit c : ℚ) * factor) (factor / 2) rest

/-- parse_bits from src/main.c: converts a bit string into a numeric
magnitude, in integer or fractional mode. -/
def parse_bits (binary_string : List Char) (is_fractional : Bool) : ℚ :=
  if is_fractional then parse_bits_frac 0 (1 / 2) binary_string
  else parse_bits_int 0 binary_string

/-- The three extracted fields, as split_binary_float returns them
(whole_float[0], whole_float[1], whole_float[2]). -/
structure SplitFields where
  sign : List Char
  exponent : List Char
  fraction : List Char
  deriving DecidableEq

/-- split_binary_float from src/main.c, modelled over the memory the
input pointer points into (`mem i` is the byte at offset i).  The C
extraction loops run `for (i = 0; i < 8 && current_bit; ...)` — the
guard tests the POINTER current_bit, which is never null, so exactly
1 + 8 + 23 bytes are copied from memory unconditionally; the loop does
not inspect the characters and in particular does not stop at a null
terminator. -/
def split_binary_float (mem : ℕ → Char) : SplitFields where
  sign := [mem 0]
  exponent := (List.range 8).map fun i => mem (1 + i)
  fraction := (List.range 23).map fun i => mem (9 + i)

/-- C pow at an integer-valued rational exponent (every call site in
convert_ieee_float passes an integer-valued float/int exponent, where
pow is exact). -/
def cpow (base x : ℚ) : ℚ := base ^ x.num

/-- convert_ieee_float from src/main.c.  Note that frac_part =
(1.0 + fraction) is computed unconditionally, also on the subnormal
(exponent == 0) branch. -/
def convert_ieee_float (full_float : SplitFields) : ℚ :=
  let exponent_size : ℚ := 127
  let sign := parse_bits full_float.sign false
  let exponent := parse_bits full_float.exponent false
  let fraction := parse_bits full_float.fraction true
  let sign_part := cpow (-1) sign
  if exponent = 255 then 0
  else
    let exp_part :=
      if exponent = 0 then cpow 2 (1 - exponent_size)
      else cpow 2 (exponent - exponent_size)
    let frac_part := 1 + fraction
    sign_part * exp_part * frac_part

/-- Memory holding the characters of a string (the bytes a 32-character
C string presents to split_binary_float at offsets 0..31). -/
def strMem (s : List Char) : ℕ → Char := fun i => s.getD i (Char.ofNat 0)

/-- The full decode pipeline on a 32-character input string. -/
def decode (s : List Char) : ℚ :=
  convert_ieee_float (split_binary_float (strMem s))

/-- Every character of the list is a binary digit. -/
def validBits (l : List Char) : Prop := ∀ c ∈ l, c = '0' ∨ c = '1'

instance (l : List Char) : Decidable (validBits l) :=
  List.decidableBAll _ l

/-- Mathematical value of a big-endian bit string. -/
def bitsVal : List Char → ℕ
  | [] => 0
  | c :: rest => (if c = '1' then 1 else 0) * 2 ^ rest.length + bitsVal rest

/-- Flip a binary digit character. -/
def flipBit (c : Char) : Char := if c = '0' then '1' else '0'

/-- The same memory with the sign bit (offset 0) flipped. -/
def flipSign (mem : ℕ → Char) : ℕ → Char :=
  fun i => if i = 0 then flipBit (mem 0) else mem i

/-- Memory holding the one-character C string "0" (null terminator at
offset 1), with '0' bytes after the terminator. -/
def shortInputMemA : ℕ → Char :=
  fun i => if i = 0 then '0' else if i = 1 then Char.ofNat 0 else '0'

/-- Memory holding the same one-character C string "0" (null terminator
at offset 1), but with '1' bytes after the terminator. -/
def shortInputMemB : ℕ → Char :=
  fun i => if i = 0 then '0' else if i = 1 then Char.ofNat 0 else '1'

/-- A subnormal encoding: sign 0, exponent 00000000, fraction
10000000000000000000000 (fractional value 0.5). -/
def subnormalInput : SplitFields :=
  ⟨['0'], List.replicate 8 '0', '1' :: List.replicate 22 '0'⟩

lemma charToDigit_zero : charToDigit '0' = 0 := by decide

lemma charToDigit_one : charToDigit '1' = 1 := by decide

lemma parse_bits_int_eq_bitsVal (l : List Char) (h : validBits l) (a : ℚ) :
    parse_bits_int a l = a * 2 ^ l.length + (bitsVal l : ℚ) := by
  induction l generalizing a with
  | nil => simp [parse_bits_int, bitsVal]
  | cons c rest ih =>
      have hc : c = '0' ∨ c = '1' := h c (List.mem_cons_self c rest)
      have hrest : validBits rest := fun x hx => h x (List.mem_cons_of_mem c hx)
      rcases hc with hc | hc <;>
        simp only [parse_bits_int, ih hrest, bitsVal, hc, List.length_cons,
          charToDigit_zero, charToDigit_one] <;>
        push_cast <;> ring

lemma bitsVal_lt (l : List Char) : bitsVal l < 2 ^ l.length := by
  induction l with
  | nil => simp [bitsVal]
  | cons c rest ih =>
      simp only [bitsVal, List.length_cons, pow_succ]
      rcases Nat.lt_or_ge 0 ((if c = '1' then 1 else 0) : ℕ) with _ | _ <;> split <;> omega

lemma parse_bits_frac_ge (l : List Char) (h : validBits l) :
    ∀ a f : ℚ, 0 ≤ f → a ≤ parse_bits_frac a f l := by
  induction l with
  | nil => intro a f _; simp [parse_bits_frac]
  | cons c rest ih =>
      intro a f hf
      have hc : c = '0' ∨ c = '1' := h c (List.mem_cons_self c rest)
      have hrest : validBits rest := fun x hx => h x (List.mem_cons_of_mem c hx)
      have hstep : a ≤ a + (charToDigit c : ℚ) * f := by
        rcases hc with hc | hc <;> simp [hc, charToDigit_zero, charToDigit_one] <;> linarith
      calc a ≤ a + (charToDigit c : ℚ) * f := hstep
        _ ≤ parse_bits_frac (a + (charToDigit c : ℚ) * f) (f / 2) rest :=
            ih hrest _ _ (by linarith)
        _ = parse_bits_frac a f (c :: rest) := rfl

lemma parse_bits_frac_zeros (n : ℕ) : ∀ a f : ℚ,
    parse_bits_frac a f (List.replicate n '0') = a := by
  induction n with
  | zero => intro a f; simp [parse_bits_frac]
  | succ n ih =>
      intro a f
      simp [List.replicate_succ, parse_bits_frac, charToDigit_zero, ih]

lemma parse_bits_int_zeros (n : ℕ) :
    parse_bits_int 0 (List.replicate n '0') = 0 := by
  induction n with
  | zero => simp [parse_bits_int]
  | succ n ih =>
      simpa [List.replicate_succ, parse_bits_int, charToDigit_zero] using ih

/-- Shared fact: when the exponent field parses to 255, convert_ieee_float
takes the error branch and returns 0. -/
lemma convert_exp255 (f : SplitFields)
    (h : parse_bits f.exponent false = 255) : convert_ieee_float f = 0 := by
  simp [convert_ieee_float, h]

/-- Shared fact: when the exponent field does not parse to 255,
convert_ieee_float returns sign_part * exp_part * (1 + fraction), the
implicit leading 1 being added on BOTH the normal and the subnormal
branch (frac_part is computed after the if in the source). -/
lemma convert_ieee_float_not255 (f : SplitFields)
    (h : ¬parse_bits f.exponent false = 255) :
    convert_ieee_float f =
      cpow (-1) (parse_bits f.sign false) *
        (if parse_bits f.exponent false = 0 then cpow 2 (1 - 127)
         else cpow 2 (parse_bits f.exponent false - 127)) *
        (1 + parse_bits f.fraction true) := by
  simp only [convert_ieee_float]
  rw [if_neg h]

/-- Field-level restatement of convert_ieee_float_not255, with the
structure projections reduced. -/
lemma convert_ieee_float_fields (sg ex fr : List Char)
    (h : ¬parse_bits ex false = 255) :
    convert_ieee_float ⟨sg, ex, fr⟩ =
      cpow (-1) (parse_bits sg false) *
        (if parse_bits ex false = 0 then cpow 2 (1 - 127)
         else cpow 2 (parse_bits ex false - 127)) *
        (1 + parse_bits fr true) :=
  convert_ieee_float_not255 ⟨sg, ex, fr⟩ h

lemma cpow_neg_one_zero : cpow (-1) 0 = 1 := by simp [cpow]

lemma cpow_neg_one_one : cpow (-1) 1 = -1 := by simp [cpow]

lemma cpow_two_intCast (z : ℤ) : cpow 2 (z : ℚ) = (2 : ℚ) ^ z := by
  simp [cpow]

lemma cpow_two_of_eq (q : ℚ) (z : ℤ) (h : q = (z : ℚ)) :
    cpow 2 q = (2 : ℚ) ^ z := by
  rw [h, cpow_two_intCast]

lemma cpow_two_one_sub_127 : cpow 2 (1 - 127) = 1 / 2 ^ 126 := by
  rw [cpow_two_of_eq (1 - 127) (-126) (by norm_num)]
  norm_num [zpow_neg]

lemma cpow_two_neg_126 : cpow 2 (-126 : ℚ) = 1 / 2 ^ 126 := by
  rw [cpow_two_of_eq (-126 : ℚ) (-126) (by norm_num)]
  norm_num [zpow_neg]

lemma parse_bits_false_eq_bitsVal (l : List Char) (h : validBits l) :
    parse_bits l false = (bitsVal l : ℚ) := by
  simp [parse_bits, parse_bits_int_eq_bitsVal l h]

lemma parse_bits_single (c : Char) :
    parse_bits [c] false = (charToDigit c : ℚ) := by
  simp [parse_bits, parse_bits_int]

lemma parse_bits_frac_nonneg (l : List Char) (h : validBits l) :
    0 ≤ parse_bits l true := by
  simpa [parse_bits] using parse_bits_frac_ge l h 0 (1 / 2) (by norm_num)

lemma parse_bits_sign_zero : parse_bits ['0'] false = 0 := by
  simp [parse_bits_single, charToDigit_zero]

lemma parse_bits_sign_one : parse_bits ['1'] false = 1 := by
  simp [parse_bits_single, charToDigit_one]

lemma parse_bits_frac_all_zeros (n : ℕ) :
    parse_bits (List.replicate n '0') true = 0 := by
  simp [parse_bits, parse_bits_frac_zeros]

lemma parse_bits_int_all_zeros (n : ℕ) :
    parse_bits (List.replicate n '0') false = 0 := by
  simp [parse_bits, parse_bits_int_zeros]

lemma map_getD_range (s : List Char) (d : Char) :
    (List.range s.length).map (fun i => s.getD i d) = s := by
  apply List.ext_getElem
  · simp
  · intro i h1 h2
    simp only [List.getElem_map, List.getElem_range]
    exact List.getD_eq_getElem s d h2

/-- C8: parse_bits in Integer mode maps an all-zero string of any length
(including the empty string) to 0, and parse_bits in Fractional mode maps
the string 1 followed by any number n of zeros to 0.5, independent of n. -/
theorem claim_C8_parser_properties :
    (∀ n : ℕ, parse_bits (List.replicate n '0') false = 0) ∧
    (∀ n : ℕ, parse_bits ('1' :: List.replicate n '0') true = 1 / 2) := by
  constructor
  · intro n
    simpa [parse_bits] using parse_bits_int_zeros n
  · intro n
    simp [parse_bits, parse_bits_frac, charToDigit_one, parse_bits_frac_zeros]

/-- C3: whenever the exponent field parses to 255, convert_ieee_float
returns 0.0 as a sentinel, regardless of the sign and fraction fields;
in this model the result is the rational 0, never an infinity or NaN. -/
theorem claim_C3_special_exponent (f : SplitFields)
    (h : parse_bits f.exponent false = 255) : convert_ieee_float f = 0 :=
  convert_exp255 f h

/-- Witness for C3 at sign 1, exponent 11111111, fraction all ones. -/
theorem claim_C3_special_exponent_witness :
    convert_ieee_float ⟨['1'], List.replicate 8 '1', List.replicate 23 '1'⟩ = 0 :=
  claim_C3_special_exponent _
    (by norm_num [List.replicate, parse_bits, parse_bits_int, charToDigit_one])

/-- C1 (refuting evaluation): on a subnormal encoding (exponent field
all zeros, fraction bits 0.5), convert_ieee_float returns
sign_part * 2^(1-127) * (1 + fraction) = 3/2^127, because frac_part =
(1.0 + fraction) is computed unconditionally; the value the claim
specifies, sign_part * 2^(1-127) * fraction, is 1/2^127, and the two
differ. -/
theorem claim_C1_subnormal_keeps_leading_one :
    convert_ieee_float subnormalInput = 3 / 2 ^ 127 ∧
    cpow (-1) (parse_bits subnormalInput.sign false) * cpow 2 (1 - 127) *
      parse_bits subnormalInput.fraction true = 1 / 2 ^ 127 ∧
    (3 / 2 ^ 127 : ℚ) ≠ 1 / 2 ^ 127 := by
  have hexp : parse_bits (List.replicate 8 '0') false = 0 := parse_bits_int_all_zeros 8
  have hfrac : parse_bits ('1' :: List.replicate 22 '0') true = 1 / 2 := by
    norm_num [parse_bits, parse_bits_frac, List.replicate, charToDigit_zero, charToDigit_one]
  refine ⟨?_, ?_, by norm_num⟩
  · show convert_ieee_float ⟨['0'], List.replicate 8 '0', '1' :: List.replicate 22 '0'⟩
      = 3 / 2 ^ 127
    rw [convert_ieee_float_fields _ _ _ (by rw [hexp]; norm_num)]
    simp only [parse_bits_sign_zero, hexp, hfrac, cpow_neg_one_zero]
    norm_num [cpow_two_one_sub_127, cpow_two_neg_126]
  · show cpow (-1) (parse_bits ['0'] false) * cpow 2 (1 - 127) *
      parse_bits ('1' :: List.replicate 22 '0') true = 1 / 2 ^ 127
    rw [parse_bits_sign_zero, hfrac, cpow_neg_one_zero, cpow_two_one_sub_127]
    norm_num

/-- C2 (refuting evaluation): decoding the all-zero 32-character input
does not yield 0.0: because the subnormal branch still multiplies by
(1.0 + fraction), the result is 2^-126 = 1/2^126, a nonzero value
(which the reference rendering %f happens to print as 0.000000). -/
theorem claim_C2_all_zero_input :
    decode (List.replicate 32 '0') = 1 / 2 ^ 126 ∧ (1 / 2 ^ 126 : ℚ) ≠ 0 := by
  refine ⟨?_, by norm_num⟩
  have hsplit : split_binary_float (strMem (List.replicate 32 '0')) =
      ⟨['0'], List.replicate 8 '0', List.replicate 23 '0'⟩ := by decide
  show convert_ieee_float (split_binary_float (strMem (List.replicate 32 '0'))) = 1 / 2 ^ 126
  rw [hsplit, convert_ieee_float_fields _ _ _
    (by rw [parse_bits_int_all_zeros]; norm_num)]
  simp only [parse_bits_sign_zero, parse_bits_int_all_zeros, parse_bits_frac_all_zeros,
    cpow_neg_one_zero]
  norm_num [cpow_two_one_sub_127, cpow_two_neg_126]

/-- C5 (refuting evaluation): the two memories shortInputMemA and
shortInputMemB hold the same one-character C string "0" (they agree at
offset 0 and both have the null terminator at offset 1), yet
split_binary_float produces different fields from them, because the
extraction loops test the pointer (always non-null) rather than the
character and therefore keep copying bytes located past the
terminator. -/
theorem claim_C5_reads_past_terminator :
    shortInputMemA 0 = shortInputMemB 0 ∧
    shortInputMemA 1 = Char.ofNat 0 ∧
    shortInputMemB 1 = Char.ofNat 0 ∧
    split_binary_float shortInputMemA ≠ split_binary_float shortInputMemB := by
  decide

/-- C6: the decode pipeline maps the known vectors
01000000000000000000000000000000 to 2, 11000000000000000000000000000000
to -2, and 00111111100000000000000000000000 to 1. -/
theorem claim_C6_known_vectors :
    decode ("01000000000000000000000000000000".toList) = 2 ∧
    decode ("11000000000000000000000000000000".toList) = -2 ∧
    decode ("00111111100000000000000000000000".toList) = 1 := by
  have hexp128 : parse_bits ['1', '0', '0', '0', '0', '0', '0', '0'] false = 128 := by
    norm_num [parse_bits, parse_bits_int, charToDigit_zero, charToDigit_one]
  have hexp127 : parse_bits ['0', '1', '1', '1', '1', '1', '1', '1'] false = 127 := by
    norm_num [parse_bits, parse_bits_int, charToDigit_zero, charToDigit_one]
  refine ⟨?_, ?_, ?_⟩
  · have hsplit : split_binary_float (strMem
        ("01000000000000000000000000000000".toList)) =
        ⟨['0'], ['1', '0', '0', '0', '0', '0', '0', '0'], List.replicate 23 '0'⟩ := by
      decide
    show convert_ieee_float (split_binary_float (strMem
      ("01000000000000000000000000000000".toList))) = 2
    rw [hsplit, convert_ieee_float_fields _ _ _ (by rw [hexp128]; norm_num)]
    simp only [parse_bits_sign_zero, hexp128, parse_bits_frac_all_zeros, cpow_neg_one_zero]
    rw [if_neg (by norm_num), cpow_two_of_eq _ 1 (by norm_num)]
    norm_num
  · have hsplit : split_binary_float (strMem
        ("11000000000000000000000000000000".toList)) =
        ⟨['1'], ['1', '0', '0', '0', '0', '0', '0', '0'], List.replicate 23 '0'⟩ := by
      decide
    show convert_ieee_float (split_binary_float (strMem
      ("11000000000000000000000000000000".toList))) = -2
    rw [hsplit, convert_ieee_float_fields _ _ _ (by rw [hexp128]; norm_num)]
    simp only [parse_bits_sign_one, hexp128, parse_bits_frac_all_zeros, cpow_neg_one_one]
    rw [if_neg (by norm_num), cpow_two_of_eq _ 1 (by norm_num)]
    norm_num
  · have hsplit : split_binary_float (strMem
        ("00111111100000000000000000000000".toList)) =
        ⟨['0'], ['0', '1', '1', '1', '1', '1', '1', '1'], List.replicate 23 '0'⟩ := by
      decide
    show convert_ieee_float (split_binary_float (strMem
      ("00111111100000000000000000000000".toList))) = 1
    rw [hsplit, convert_ieee_float_fields _ _ _ (by rw [hexp127]; norm_num)]
    simp only [parse_bits_sign_zero, hexp127, parse_bits_frac_all_zeros, cpow_neg_one_zero]
    rw [if_neg (by norm_num), cpow_two_of_eq _ 0 (by norm_num)]
    norm_num

/-- C9: for a 32-character input, the three fields split_binary_float
extracts are character 0, characters 1-8 and characters 9-31, so their
concatenation sign ++ exponent ++ fraction reproduces the input. -/
theorem claim_C9_split_concat (s : List Char) (h : s.length = 32) :
    (split_binary_float (strMem s)).sign ++ (split_binary_float (strMem s)).exponent ++
      (split_binary_float (strMem s)).fraction = s := by
  have hidx : ([0] ++ ((List.range 8).map (fun i => 1 + i) ++
      (List.range 23).map fun i => 9 + i)) = List.range 32 := by decide
  calc (split_binary_float (strMem s)).sign ++ ((split_binary_float (strMem s)).exponent ++
      (split_binary_float (strMem s)).fraction)
      = ([0] ++ ((List.range 8).map (fun i => 1 + i) ++
          (List.range 23).map fun i => 9 + i)).map (strMem s) := by
        simp [split_binary_float, List.map_map, Function.comp_def]
    _ = (List.range 32).map (strMem s) := by rw [hidx]
    _ = s := by
        have h2 := map_getD_range s (Char.ofNat 0)
        rw [h] at h2
        exact h2

/-- Witness for C9 at the all-zero 32-character input. -/
theorem claim_C9_split_concat_witness :
    (split_binary_float (strMem (List.replicate 32 '0'))).sign ++
      (split_binary_float (strMem (List.replicate 32 '0'))).exponent ++
      (split_binary_float (strMem (List.replicate 32 '0'))).fraction =
      List.replicate 32 '0' :=
  claim_C9_split_concat _ (by decide)

/-- C4: for every SplitFields whose sign field parses to 0 and whose
exponent field parses to e with 1 ≤ e ≤ 254, convert_ieee_float returns
2^(e-127) * (1 + fraction), where fraction is the Fractional-mode parse
of the fraction bits. -/
theorem claim_C4_normal_decode (f : SplitFields) (e : ℕ)
    (hs : parse_bits f.sign false = 0)
    (he : parse_bits f.exponent false = (e : ℚ))
    (h1 : 1 ≤ e) (h2 : e ≤ 254) :
    convert_ieee_float f = 2 ^ ((e : ℤ) - 127) * (1 + parse_bits f.fraction true) := by
  have hne255 : ¬parse_bits f.exponent false = 255 := by
    rw [he]
    intro hc
    have he255 : e = 255 := by exact_mod_cast hc
    omega
  have hne0 : ¬(e : ℚ) = 0 := by
    intro hc
    have he0 : e = 0 := by exact_mod_cast hc
    omega
  rw [convert_ieee_float_not255 f hne255, hs, he, if_neg hne0, cpow_neg_one_zero,
    cpow_two_of_eq _ ((e : ℤ) - 127) (by push_cast; ring)]
  ring

/-- Witness for C4 at sign 0, exponent 10000000 (e = 128), fraction
all zeros. -/
theorem claim_C4_normal_decode_witness :
    convert_ieee_float ⟨['0'], ['1', '0', '0', '0', '0', '0', '0', '0'],
      List.replicate 23 '0'⟩ =
      2 ^ (((128 : ℕ) : ℤ) - 127) * (1 + parse_bits (List.replicate 23 '0') true) :=
  claim_C4_normal_decode _ 128 parse_bits_sign_zero
    (by norm_num [parse_bits, parse_bits_int, charToDigit_zero, charToDigit_one])
    (by norm_num) (by norm_num)

/-- C7: flipping the sign bit of the input memory while keeping every
other position fixed negates the decoded result exactly; the sign part
is cpow (-1) sign, i.e. 1 when the sign bit is 0 and -1 when it is 1. -/
theorem claim_C7_sign_flip (mem : ℕ → Char) (h : mem 0 = '0' ∨ mem 0 = '1') :
    convert_ieee_float (split_binary_float (flipSign mem)) =
      -convert_ieee_float (split_binary_float mem) := by
  have hexp : (split_binary_float (flipSign mem)).exponent =
      (split_binary_float mem).exponent := by
    show (List.range 8).map (fun i => flipSign mem (1 + i)) =
      (List.range 8).map fun i => mem (1 + i)
    apply List.map_congr_left
    intro i _
    simp only [flipSign]
    rw [if_neg (by omega)]
  have hfrac : (split_binary_float (flipSign mem)).fraction =
      (split_binary_float mem).fraction := by
    show (List.range 23).map (fun i => flipSign mem (9 + i)) =
      (List.range 23).map fun i => mem (9 + i)
    apply List.map_congr_left
    intro i _
    simp only [flipSign]
    rw [if_neg (by omega)]
  have hsgn : (split_binary_float (flipSign mem)).sign = [flipBit (mem 0)] := by
    show [flipSign mem 0] = [flipBit (mem 0)]
    simp [flipSign]
  have hsgn0 : (split_binary_float mem).sign = [mem 0] := rfl
  by_cases h255 : parse_bits (split_binary_float mem).exponent false = 255
  · rw [convert_exp255 _ h255, convert_exp255 _ (by rw [hexp]; exact h255), neg_zero]
  · have h255f : ¬parse_bits (split_binary_float (flipSign mem)).exponent false = 255 := by
      rw [hexp]; exact h255
    rw [convert_ieee_float_not255 _ h255f, convert_ieee_float_not255 _ h255,
      hexp, hfrac, hsgn, hsgn0]
    rcases h with h0 | h0
    · rw [h0, show flipBit '0' = '1' by decide, parse_bits_sign_one,
        parse_bits_sign_zero, cpow_neg_one_one, cpow_neg_one_zero]
      ring
    · rw [h0, show flipBit '1' = '0' by decide, parse_bits_sign_zero,
        parse_bits_sign_one, cpow_neg_one_zero, cpow_neg_one_one]
      ring

/-- Witness for C7 at the input 01000000000000000000000000000000. -/
theorem claim_C7_sign_flip_witness :
    convert_ieee_float (split_binary_float (flipSign (strMem
      ("01000000000000000000000000000000".toList)))) =
      -convert_ieee_float (split_binary_float (strMem
      ("01000000000000000000000000000000".toList))) :=
  claim_C7_sign_flip _ (Or.inl (by decide))

/-- C10: for every well-formed SplitFields (binary digits, field widths
1 and 8), convert_ieee_float returns 0 exactly when the exponent field
parses to 255, and whenever it does not, the absolute value of the
result is at least 2^-126, so the 0.0 sentinel is never also a
legitimate decoded value. -/
theorem claim_C10_zero_iff_special (f : SplitFields)
    (hs : validBits f.sign) (hsl : f.sign.length = 1)
    (he : validBits f.exponent) (hel : f.exponent.length = 8)
    (hf : validBits f.fraction) :
    (convert_ieee_float f = 0 ↔ parse_bits f.exponent false = 255) ∧
    (¬parse_bits f.exponent false = 255 → 1 / 2 ^ 126 ≤ |convert_ieee_float f|) := by
  have hbound : ¬parse_bits f.exponent false = 255 →
      1 / 2 ^ 126 ≤ |convert_ieee_float f| := by
    intro h255
    obtain ⟨c, hc⟩ := List.length_eq_one.mp hsl
    have hcbit : c = '0' ∨ c = '1' := by
      apply hs
      rw [hc]
      exact List.mem_cons_self c []
    have hev : parse_bits f.exponent false = (bitsVal f.exponent : ℚ) :=
      parse_bits_false_eq_bitsVal f.exponent he
    have hfr : 0 ≤ parse_bits f.fraction true := parse_bits_frac_nonneg f.fraction hf
    rw [convert_ieee_float_not255 f h255, hc]
    set F := parse_bits f.fraction true with hF
    set EP := (if parse_bits f.exponent false = 0 then cpow 2 (1 - 127)
        else cpow 2 (parse_bits f.exponent false - 127)) with hEP
    have hone : (1 : ℚ) ≤ 1 + F := by linarith
    have hEPge : 1 / 2 ^ 126 ≤ EP := by
      by_cases hk0 : parse_bits f.exponent false = 0
      · rw [hEP, if_pos hk0, cpow_two_one_sub_127]
      · rw [hEP, if_neg hk0,
          cpow_two_of_eq _ ((bitsVal f.exponent : ℤ) - 127) (by rw [hev]; push_cast; ring)]
        have hk1 : 1 ≤ bitsVal f.exponent := by
          rcases Nat.eq_zero_or_pos (bitsVal f.exponent) with h0 | h0
          · exact absurd (by rw [hev, h0]; norm_num) hk0
          · exact h0
        calc (1 / 2 ^ 126 : ℚ) = 2 ^ (-126 : ℤ) := by norm_num [zpow_neg]
          _ ≤ 2 ^ ((bitsVal f.exponent : ℤ) - 127) := by
              apply zpow_le_zpow_right₀ (by norm_num)
              omega
    have hEPpos : 0 < EP := lt_of_lt_of_le (by norm_num) hEPge
    have hprod : 1 / 2 ^ 126 ≤ EP * (1 + F) :=
      le_trans hEPge (le_mul_of_one_le_right (le_of_lt hEPpos) hone)
    have hprodpos : 0 ≤ EP * (1 + F) := le_trans (by norm_num) hprod
    rcases hcbit with hc0 | hc0 <;> rw [hc0]
    · rw [parse_bits_sign_zero, cpow_neg_one_zero, one_mul, abs_of_nonneg hprodpos]
      exact hprod
    · rw [parse_bits_sign_one, cpow_neg_one_one,
        show (-1 : ℚ) * EP * (1 + F) = -(EP * (1 + F)) by ring, abs_neg,
        abs_of_nonneg hprodpos]
      exact hprod
  refine ⟨⟨?_, convert_exp255 f⟩, hbound⟩
  intro hzero
  by_contra h255
  have hge := hbound h255
  rw [hzero, abs_zero] at hge
  norm_num at hge

/-- Witness for C10 at the all-zero fields (where the decoded value is
the nonzero 2^-126). -/
theorem claim_C10_zero_iff_special_witness :
    ((convert_ieee_float ⟨['0'], List.replicate 8 '0', List.replicate 23 '0'⟩ = 0 ↔
      parse_bits (List.replicate 8 '0') false = 255) ∧
     (¬parse_bits (List.replicate 8 '0') false = 255 →
      1 / 2 ^ 126 ≤
        |convert_ieee_float ⟨['0'], List.replicate 8 '0', List.replicate 23 '0'⟩|)) :=
  claim_C10_zero_iff_special _ (by decide) (by decide) (by decide) (by decide) (by decide)
